import Mathlib

/-!
Verification of the core of a multimodal RAG system: document ingestion
(upload routing, paragraph chunking, identifier and metadata construction)
and cross-modal retrieval (score normalization, rank merge, source
attribution).

Modelling conventions for the shallow embedding of the Python source:
Python strings are `List Char`, Python floats are exact rationals, raised
exceptions are `Except` errors, and dictionaries with a fixed key set are
structures with `Option` fields (a `none` field models an absent key).
-/

deriving instance DecidableEq for Except

namespace MMRag

/-! ### Python string primitives -/

/-- The characters removed by the Python method `str.strip()` with no
argument (ASCII whitespace; the rare non-ASCII unicode spaces are not
modelled, no claim depends on them). -/
def pySpace (c : Char) : Bool :=
  c = ' ' || c = '\t' || c = '\n' || c = '\r' || c = '\x0b' || c = '\x0c'

/-- Python `str.strip()`: drop leading whitespace, then trailing whitespace. -/
def pyStrip (s : List Char) : List Char :=
  ((s.dropWhile pySpace).reverse.dropWhile pySpace).reverse

/-- ASCII lowercasing of one character, the fragment of Python
`str.lower()` relevant to filename extensions. -/
def lowerChar (c : Char) : Char :=
  if 'A' ≤ c && c ≤ 'Z' then Char.ofNat (c.toNat + 32) else c

/-- Python `str.lower()` (ASCII fragment). -/
def pyLower (s : List Char) : List Char := s.map lowerChar

/-- Python `str.endswith(suffix)`. -/
def endsWithL (s suffix : List Char) : Bool := suffix.isSuffixOf s

/-- Decimal rendering of a natural number, as used by Python f-strings. -/
def natChars (n : Nat) : List Char := (Nat.repr n).data

/-! ### Score normalization (`_normalize_scores`, `app/retrieval.py` lines 19-35) -/

/-- Python `math.isclose` at its default tolerances
(`rel_tol = 1e-09`, `abs_tol = 0.0`). -/
def mathIsClose (a b : ℚ) : Prop :=
  |a - b| ≤ 1 / 1000000000 * max |a| |b|

instance (a b : ℚ) : Decidable (mathIsClose a b) := by
  unfold mathIsClose; infer_instance

/-- Python `min` over a non-empty list, phrased on a head and a tail. -/
def pyListMin (first : ℚ) (rest : List ℚ) : ℚ := rest.foldl min first

/-- Python `max` over a non-empty list, phrased on a head and a tail. -/
def pyListMax (first : ℚ) (rest : List ℚ) : ℚ := rest.foldl max first

/-- `_normalize_scores`: min-max normalization, with every score mapped
to 1 when `math.isclose(mx, mn)` holds, and an empty list mapped to the
empty list. -/
def normalizeScores : List ℚ → List ℚ
  | [] => []
  | s0 :: rest =>
    if mathIsClose (pyListMax s0 rest) (pyListMin s0 rest) then
      (s0 :: rest).map (fun _ => 1)
    else
      (s0 :: rest).map
        (fun s => (s - pyListMin s0 rest) / (pyListMax s0 rest - pyListMin s0 rest))

/-! ### Metadata and source attribution (`_format_source_attribution`, lines 38-60) -/

/-- A stored metadata record: the Python metadata dictionary with its
fixed key set; a `none` field models an absent key. -/
structure Metadata where
  doc_id : Option (List Char) := none
  file_type : Option (List Char) := none
  source_path : Option (List Char) := none
  uploaded_at : Option (List Char) := none
  page : Option Nat := none
  chunk_index : Option Nat := none
  ocr_text : Option (List Char) := none
  image_path : Option (List Char) := none
deriving DecidableEq

/-- `_format_source_attribution`: mandatory source and type parts, then
page, chunk index and upload timestamp each appended only when present,
joined by a bar separator. -/
def formatSourceAttribution (metadata : Metadata) : List Char :=
  List.intercalate " | ".data
    (["Source: ".data ++ metadata.source_path.getD "unknown".data,
      "Type: ".data ++ metadata.file_type.getD "unknown".data]
      ++ (match metadata.page with
          | some n => ["Page: ".data ++ natChars n]
          | none => [])
      ++ (match metadata.chunk_index with
          | some i => ["Chunk: ".data ++ natChars i]
          | none => [])
      ++ (match metadata.uploaded_at with
          | some ts => ["Uploaded: ".data ++ ts]
          | none => []))

/-! ### Cross-modal merge (`multimodal_query`, `app/retrieval.py` lines 63-136) -/

/-- Result modality tag. -/
inductive Modality
  | text
  | image
deriving DecidableEq

/-- One entry of the merged result list built by `multimodal_query`. -/
structure MergedResult where
  id : List Char
  score : ℚ
  modality : Modality
  document : Option (List Char)
  metadata : Metadata
  source : List Char
  ocr_text : Option (List Char) := none
deriving DecidableEq

/-- The slice of a vector-store query reply that `multimodal_query` reads,
already restricted to the inner per-query lists. A `none` field models a
missing or falsy entry, matching the `.get(...)` guards in the source.
Per the store interface the lists of a well-formed reply are aligned with
`ids`; out-of-range access (impossible for such replies) is modelled with
default values. -/
structure QueryReply where
  ids : List (List Char)
  distances : Option (List ℚ)
  metadatas : Option (List Metadata)
  documents : Option (List (List Char))

/-- Lines 96-104: convert returned cosine distances to raw similarities
`1 - d`; an absent or falsy distances entry yields the empty list. -/
def rawSimilarities (r : QueryReply) : List ℚ :=
  match r.distances with
  | none => []
  | some ds => ds.map (fun d => 1 - d)

/-- Lines 107-116: the text candidates in reply order, scored with the
normalized text scores (score 0 when the index is past the score list). -/
def textEntries (r : QueryReply) : List MergedResult :=
  (r.ids.enum).map (fun p =>
    let metadata := (r.metadatas.map (fun ms => ms.getD p.1 {})).getD {}
    { id := p.2
      score := (normalizeScores (rawSimilarities r)).getD p.1 0
      modality := Modality.text
      document := r.documents.map (fun ds => ds.getD p.1 [])
      metadata := metadata
      source := formatSourceAttribution metadata })

/-- Lines 119-129: the image candidates in reply order, with their stored
OCR text. -/
def imageEntries (r : QueryReply) : List MergedResult :=
  (r.ids.enum).map (fun p =>
    let metadata := (r.metadatas.map (fun ms => ms.getD p.1 {})).getD {}
    { id := p.2
      score := (normalizeScores (rawSimilarities r)).getD p.1 0
      modality := Modality.image
      document := none
      metadata := metadata
      source := formatSourceAttribution metadata
      ocr_text := some (metadata.ocr_text.getD []) })

/-- Line 92-129: the merged candidate list, text candidates first, then
image candidates. -/
def buildMerged (textRes imageRes : QueryReply) : List MergedResult :=
  textEntries textRes ++ imageEntries imageRes

/-- Stable insertion into a list sorted by descending score: the inserted
element goes before the first element whose score does not exceed it. -/
def insertDesc (x : MergedResult) : List MergedResult → List MergedResult
  | [] => [x]
  | y :: ys => if y.score ≤ x.score then x :: y :: ys else y :: insertDesc x ys

/-- The unique stable sort by descending score, the behaviour of the
Python call `merged.sort(key=lambda x: x["score"], reverse=True)` on
line 132 (Python list sort is stable, and reverse=True does not reverse
ties). -/
def sortByScoreDesc : List MergedResult → List MergedResult
  | [] => []
  | x :: xs => insertDesc x (sortByScoreDesc xs)

/-- Lines 131-133: sort the merged list by descending score and keep the
first `top_k` entries. -/
def rankResults (merged : List MergedResult) (top_k : Nat) : List MergedResult :=
  (sortByScoreDesc merged).take top_k

/-- The response of `multimodal_query` (line 136). -/
structure QueryOutput where
  query : List Char
  results : List MergedResult
  total_results : Nat

/-- `multimodal_query`, with the two store replies passed in as inputs
(embedding and store access are external collaborators). -/
def multimodalQuery (query : List Char) (textRes imageRes : QueryReply)
    (top_k : Nat) : QueryOutput :=
  let final := rankResults (buildMerged textRes imageRes) top_k
  { query := query, results := final, total_results := final.length }

/-! ### Upload routing (`process_upload`, `app/ingestion.py` lines 24-70) -/

/-- `SUPPORTED_TEXT` from `app/ingestion.py`. -/
def SUPPORTED_TEXT : List (List Char) := ["text/plain".data]

/-- `SUPPORTED_IMAGES` from `app/ingestion.py`. -/
def SUPPORTED_IMAGES : List (List Char) :=
  ["image/png".data, "image/jpeg".data, "image/jpg".data]

/-- `SUPPORTED_PDF` from `app/ingestion.py`. -/
def SUPPORTED_PDF : List (List Char) := ["application/pdf".data]

/-- The three type-specific ingestion routines an upload can be routed to. -/
inductive Route
  | text
  | image
  | pdf
deriving DecidableEq

/-- A FastAPI HTTPException, carrying status code and detail string. -/
inductive ApiError
  | http (status : Nat) (detail : List Char)
deriving DecidableEq

/-- The detail text of the unsupported-type error on line 70. -/
def unsupportedDetail (content_type : List Char) : List Char :=
  "Unsupported file type: ".data ++ content_type

/-- Lines 62-70 of `process_upload`: route by modality branch in order
text, image, PDF; inside each branch the declared content type is tested
against that branch set, with the lowercased filename extension as the
branch alternative; an upload matching no branch raises status 415
carrying the content type. -/
def classifyUpload (content_type filename : List Char) : Except ApiError Route :=
  if SUPPORTED_TEXT.contains content_type
      || endsWithL (pyLower filename) ".txt".data then
    .ok Route.text
  else if SUPPORTED_IMAGES.contains content_type
      || endsWithL (pyLower filename) ".png".data
      || endsWithL (pyLower filename) ".jpg".data
      || endsWithL (pyLower filename) ".jpeg".data then
    .ok Route.image
  else if SUPPORTED_PDF.contains content_type
      || endsWithL (pyLower filename) ".pdf".data then
    .ok Route.pdf
  else
    .error (.http 415 (unsupportedDetail content_type))

/-- Modelled from the spec: the classification precedence the spec
describes for the router, with the whole content-type membership check
performed first across all three supported sets and the filename
extension used only as a fallback when no content-type set matched. -/
def specClassifyUpload (content_type filename : List Char) : Except ApiError Route :=
  if SUPPORTED_TEXT.contains content_type then .ok Route.text
  else if SUPPORTED_IMAGES.contains content_type then .ok Route.image
  else if SUPPORTED_PDF.contains content_type then .ok Route.pdf
  else if endsWithL (pyLower filename) ".txt".data then .ok Route.text
  else if endsWithL (pyLower filename) ".png".data
      || endsWithL (pyLower filename) ".jpg".data
      || endsWithL (pyLower filename) ".jpeg".data then .ok Route.image
  else if endsWithL (pyLower filename) ".pdf".data then .ok Route.pdf
  else .error (.http 415 (unsupportedDetail content_type))

/-! ### Unit identifiers (`app/ingestion.py` lines 104, 139, 209, 224) -/

/-- Line 104: identifier of a plain-text chunk,
built as txt, the document id and the bare chunk index, joined by double
colons. -/
def textChunkId (doc_id : List Char) (i : Nat) : List Char :=
  "txt::".data ++ doc_id ++ "::".data ++ natChars i

/-- Line 139: identifier of a whole-image unit. -/
def imageUnitId (doc_id : List Char) : List Char :=
  "img::".data ++ doc_id

/-- Line 224: identifier of a PDF text chunk, with page and chunk parts. -/
def pdfTextChunkId (doc_id : List Char) (page i : Nat) : List Char :=
  "pdftext::".data ++ doc_id ++ "::p".data ++ natChars page
    ++ "::c".data ++ natChars i

/-- Line 209: identifier of a rendered PDF page image, with page part and
the basename of the rendered file. -/
def pdfImageId (doc_id : List Char) (page : Nat) (basename : List Char) : List Char :=
  "pdfimg::".data ++ doc_id ++ "::p".data ++ natChars page ++ "::".data ++ basename

/-- The optional final identifier component of the documented id schema:
nothing, a chunk-index component or a basename component. -/
inductive UnitTail
  | noTail
  | chunkTail (i : Nat)
  | nameTail (basename : List Char)
deriving DecidableEq

/-- Modelled from the spec: the documented id schema. A modality tag and
the document id, then an optional page component of the form p followed by
the page number, then optionally either a chunk component of the form c
followed by the chunk index, or a basename component; all components
joined by double colons. -/
def schemaId (modalityTag doc_id : List Char) (page : Option Nat)
    (tail : UnitTail) : List Char :=
  modalityTag ++ "::".data ++ doc_id
    ++ (match page with
        | some p => "::p".data ++ natChars p
        | none => [])
    ++ (match tail with
        | UnitTail.noTail => []
        | UnitTail.chunkTail i => "::c".data ++ natChars i
        | UnitTail.nameTail b => "::".data ++ b)

/-! ### Paragraph chunker (`app/ingestion.py` line 98 and lines 183-184) -/

/-- Prepend a character (or line) to the first group of a split result,
creating a first group when there is none. -/
def consHead {α : Type} (a : α) : List (List α) → List (List α)
  | [] => [[a]]
  | g :: gs => (a :: g) :: gs

/-- Python `text.split` at the two-character separator of one newline
followed by another: leftmost non-overlapping matches, keeping empty
segments. -/
def split2NL : List Char → List (List Char)
  | [] => [[]]
  | c :: rest =>
    if c = '\n' then
      match rest with
      | c2 :: rest2 =>
        if c2 = '\n' then [] :: split2NL rest2
        else consHead c (split2NL (c2 :: rest2))
      | [] => consHead c (split2NL [])
    else consHead c (split2NL rest)

/-- Line 98 (and 183): the paragraph chunker, a Python list comprehension
splitting at double newlines, stripping each segment and keeping the
non-empty ones. -/
def chunkText (text : List Char) : List (List Char) :=
  ((split2NL text).map pyStrip).filter (fun c => !c.isEmpty)

/-- Splitting a text into its lines (split at every newline, keeping
empty lines). -/
def splitNLlines : List Char → List (List Char)
  | [] => [[]]
  | c :: rest =>
    if c = '\n' then [] :: splitNLlines rest
    else consHead c (splitNLlines rest)

/-- Grouping a list of lines into paragraph groups separated by fully
blank (empty) lines; empty groups mark boundary runs. -/
def splitBlank : List (List Char) → List (List (List Char))
  | [] => [[]]
  | l :: ls =>
    if l.isEmpty then [] :: splitBlank ls
    else consHead l (splitBlank ls)

/-- Rejoin the lines of one paragraph group with single newlines. -/
def joinNL : List (List Char) → List Char
  | [] => []
  | g :: gs =>
    match gs with
    | [] => g
    | _ :: _ => g ++ '\n' :: joinNL gs

/-- Modelled from the spec: the chunker contract as worded there — split
on blank-line boundaries, where a paragraph boundary is one or more fully
blank lines, trim each segment, drop segments that are empty after
trimming, preserve original order. -/
def specChunkText (text : List Char) : List (List Char) :=
  (((splitBlank (splitNLlines text)).map joinNL).map pyStrip).filter
    (fun c => !c.isEmpty)

/-- Whether a text contains two adjacent newline characters, i.e. a
blank-line paragraph separator. -/
def hasNN : List Char → Bool
  | [] => false
  | [_] => false
  | c :: c2 :: rest => (c = '\n' && c2 = '\n') || hasNN (c2 :: rest)

/-! ### Text and image ingestion (`_ingest_text` lines 78-117, `_ingest_image` lines 120-152) -/

/-- What `_ingest_text` upserts and returns on success. -/
structure TextIngest where
  doc_id : List Char
  ids : List (List Char)
  metadatas : List Metadata
  documents : List (List Char)
  ingested_chunks : Nat
deriving DecidableEq

/-- `_ingest_text` with the file content, the generated document id and
timestamp passed in: strip the content, fail with status 400 when the
stripped text is empty, otherwise chunk it and upsert one unit per chunk.
An error aborts before any embedding or upsert output is produced. -/
def ingestText (doc_id timestamp path content : List Char) :
    Except ApiError TextIngest :=
  let text := pyStrip content
  if text.isEmpty then .error (.http 400 "Empty text file".data)
  else
    let chunks := chunkText text
    .ok
      { doc_id := doc_id
        ids := (List.range chunks.length).map (textChunkId doc_id)
        metadatas := (List.range chunks.length).map (fun i =>
          { doc_id := some doc_id
            file_type := some "text".data
            source_path := some path
            chunk_index := some i
            uploaded_at := some timestamp })
        documents := chunks
        ingested_chunks := chunks.length }

/-- The ids a text ingestion call actually upserted: none when it raised. -/
def upsertedIds : Except ApiError TextIngest → List (List Char)
  | .error _ => []
  | .ok r => r.ids

/-- One run of the external OCR engine as observed by `ocr_image`:
either the engine produced text, or the Tesseract binary was missing,
or it raised some other exception. -/
inductive OcrRun
  | ok (text : List Char)
  | notFound
  | failed
deriving DecidableEq

/-- `ocr_image` (`app/utils/ocr_utils.py` lines 23-44): the stripped
engine output on success and the empty string on every failure; the
function itself never raises. -/
def ocrImage : OcrRun → List Char
  | OcrRun.ok text => pyStrip text
  | OcrRun.notFound => []
  | OcrRun.failed => []

/-- A value of the JSON-like upload response dictionary. -/
inductive RespVal
  | s (v : List Char)
  | n (v : Nat)
deriving DecidableEq

/-- What `_ingest_image` upserts and returns once the image is decoded:
one unit in the image collection and the response dictionary of line 149,
in its literal key order. -/
structure ImageIngest where
  ids : List (List Char)
  metadatas : List Metadata
  response : List (List Char × RespVal)
deriving DecidableEq

/-- `_ingest_image` after decode and embedding, with the OCR run outcome
passed in; OCR failure degrades to the empty string and the single image
unit is still built and upserted. -/
def ingestImage (doc_id timestamp path : List Char) (run : OcrRun) : ImageIngest :=
  let ocr_text := ocrImage run
  { ids := [imageUnitId doc_id]
    metadatas := [{ doc_id := some doc_id
                    file_type := some "image".data
                    source_path := some path
                    uploaded_at := some timestamp
                    ocr_text := some ocr_text }]
    response := [("status".data, RespVal.s "ok".data),
                 ("ingested_images".data, RespVal.n 1),
                 ("doc_id".data, RespVal.s doc_id),
                 ("ocr_chars".data, RespVal.n ocr_text.length)] }

/-- The strip-and-filter pipe shared by the source chunker and the
spec-side chunker. -/
def filterTrim (gs : List (List Char)) : List (List Char) :=
  (gs.map pyStrip).filter (fun c => !c.isEmpty)

/-- Head-and-tail agreement of the two chunking pipelines on a text that
does not start with a newline: both split off the same first paragraph
(up to one trailing newline, which stripping removes) and their remaining
segments chunk equally. -/
def SplitAgree (t : List Char) : Prop :=
  ∃ H Rsrc G Rspec,
    split2NL t = H :: Rsrc ∧
    splitBlank (splitNLlines t) = G :: Rspec ∧
    (H = joinNL G ∨ H = joinNL G ++ ['\n']) ∧
    filterTrim Rsrc = filterTrim (Rspec.map joinNL) ∧
    (t ≠ [] → G ≠ [])

/-- An optional attribution part: a labelled value when present, nothing
otherwise. -/
def optPart (label : List Char) (v : Option (List Char)) : List (List Char) :=
  match v with
  | some s => [label ++ s]
  | none => []

/-- Modelled from the spec: the attribution parts in the fixed field
order worded there — source and type first, then page, chunk index and
upload timestamp, each only if present. -/
def specAttributionParts (md : Metadata) : List (List Char) :=
  ["Source: ".data ++ md.source_path.getD "unknown".data,
   "Type: ".data ++ md.file_type.getD "unknown".data]
    ++ optPart "Page: ".data (md.page.map natChars)
    ++ optPart "Chunk: ".data (md.chunk_index.map natChars)
    ++ optPart "Uploaded: ".data md.uploaded_at

/-- The metadata record of the attribution example in the spec. -/
def pdfChunkMetadata : Metadata :=
  { file_type := some "pdf_text".data
    source_path := some "data/uploads/document.pdf".data
    page := some 5
    chunk_index := some 2 }

/-- A merged candidate carrying only the fields the merge-order example
constrains. -/
def exampleCandidate (id : List Char) (score : ℚ) (modality : Modality) :
    MergedResult :=
  { id := id
    score := score
    modality := modality
    document := none
    metadata := {}
    source := formatSourceAttribution {} }

/-- The text candidates of the merge-ordering example, with normalized
scores 0.9 and 0.4. -/
def exampleTextCandidates : List MergedResult :=
  [exampleCandidate "t-high".data 0.9 Modality.text,
   exampleCandidate "t-low".data 0.4 Modality.text]

/-- The image candidates of the merge-ordering example, with normalized
scores 0.95 and 0.5. -/
def exampleImageCandidates : List MergedResult :=
  [exampleCandidate "i-high".data 0.95 Modality.image,
   exampleCandidate "i-low".data 0.5 Modality.image]

/-! ### Chunker lemmas -/

theorem consHead_cons {α : Type} (a : α) (g : List α) (gs : List (List α)) :
    consHead a (g :: gs) = (a :: g) :: gs := rfl

theorem consHead_ne_nil {α : Type} (a : α) (gs : List (List α)) :
    consHead a gs ≠ [] := by
  cases gs <;> simp [consHead]

theorem pyStrip_nil : pyStrip [] = [] := rfl

theorem pyStrip_cons_of_space (c : Char) (h : pySpace c = true) (t : List Char) :
    pyStrip (c :: t) = pyStrip t := by
  simp [pyStrip, List.dropWhile_cons, h]

theorem pyStrip_append_of_space (t : List Char) (c : Char) (h : pySpace c = true) :
    pyStrip (t ++ [c]) = pyStrip t := by
  induction t with
  | nil => simp [pyStrip, List.dropWhile_cons, h]
  | cons a t ih =>
    by_cases ha : pySpace a = true
    · rw [List.cons_append, pyStrip_cons_of_space a ha, pyStrip_cons_of_space a ha, ih]
    · have ha2 : pySpace a = false := by simpa using ha
      simp [pyStrip, List.dropWhile_cons, ha2, List.reverse_append, h]

theorem dropWhile_forall_iff (p : Char → Bool) (l : List Char) :
    (∀ c ∈ l.dropWhile p, p c = true) ↔ (∀ c ∈ l, p c = true) := by
  induction l with
  | nil => simp
  | cons a l ih =>
    by_cases ha : p a = true
    · simpa [List.dropWhile_cons, ha] using ih
    · simp [List.dropWhile_cons, ha]

theorem pyStrip_eq_nil_iff (t : List Char) :
    pyStrip t = [] ↔ ∀ c ∈ t, pySpace c = true := by
  unfold pyStrip
  rw [List.reverse_eq_nil_iff, List.dropWhile_eq_nil_iff]
  constructor
  · intro h
    rw [← dropWhile_forall_iff pySpace t]
    intro d hd
    exact h d (List.mem_reverse.mpr hd)
  · intro h d hd
    exact ((dropWhile_forall_iff pySpace t).mpr h) d (List.mem_reverse.mp hd)

theorem split2NL_nil : split2NL [] = [[]] := rfl

theorem split2NL_nlnl (rest : List Char) :
    split2NL ('\n' :: '\n' :: rest) = [] :: split2NL rest := by
  simp [split2NL]

theorem split2NL_nl_cons (c2 : Char) (rest2 : List Char) (h : ¬ c2 = '\n') :
    split2NL ('\n' :: c2 :: rest2) = consHead '\n' (split2NL (c2 :: rest2)) := by
  simp [split2NL, h]

theorem split2NL_nl_single : split2NL ['\n'] = [['\n']] := rfl

theorem split2NL_cons_ne (c : Char) (rest : List Char) (h : ¬ c = '\n') :
    split2NL (c :: rest) = consHead c (split2NL rest) := by
  cases rest <;> simp [split2NL, h]

theorem split2NL_ne_nil (t : List Char) : split2NL t ≠ [] := by
  cases t with
  | nil => simp [split2NL]
  | cons c rest =>
    by_cases hc : c = '\n'
    · subst hc
      cases rest with
      | nil => simp [split2NL_nl_single]
      | cons c2 rest2 =>
        by_cases h2 : c2 = '\n'
        · subst h2; simp [split2NL_nlnl]
        · rw [split2NL_nl_cons c2 rest2 h2]; exact consHead_ne_nil _ _
    · rw [split2NL_cons_ne c rest hc]; exact consHead_ne_nil _ _

theorem splitNLlines_nil : splitNLlines [] = [[]] := rfl

theorem splitNLlines_cons_nl (rest : List Char) :
    splitNLlines ('\n' :: rest) = [] :: splitNLlines rest := by
  simp [splitNLlines]

theorem splitNLlines_cons_ne (c : Char) (rest : List Char) (h : ¬ c = '\n') :
    splitNLlines (c :: rest) = consHead c (splitNLlines rest) := by
  simp [splitNLlines, h]

theorem splitNLlines_ne_nil (t : List Char) : splitNLlines t ≠ [] := by
  cases t with
  | nil => simp [splitNLlines]
  | cons c rest =>
    by_cases hc : c = '\n'
    · subst hc; simp [splitNLlines_cons_nl]
    · rw [splitNLlines_cons_ne c rest hc]; exact consHead_ne_nil _ _

theorem splitBlank_nil : splitBlank [] = [[]] := rfl

theorem splitBlank_cons_nil (ls : List (List Char)) :
    splitBlank ([] :: ls) = [] :: splitBlank ls := by
  simp [splitBlank]

theorem splitBlank_cons_ne (l : List Char) (ls : List (List Char)) (h : l ≠ []) :
    splitBlank (l :: ls) = consHead l (splitBlank ls) := by
  simp [splitBlank, List.isEmpty_iff, h]

theorem joinNL_nil : joinNL [] = [] := rfl

theorem joinNL_single (g : List Char) : joinNL [g] = g := rfl

theorem joinNL_cons_of_ne_nil (g : List Char) (gs : List (List Char)) (h : gs ≠ []) :
    joinNL (g :: gs) = g ++ '\n' :: joinNL gs := by
  cases gs with
  | nil => exact absurd rfl h
  | cons g2 gs2 => rfl

theorem chunkText_eq_filterTrim (t : List Char) :
    chunkText t = filterTrim (split2NL t) := rfl

theorem specChunkText_eq_filterTrim (t : List Char) :
    specChunkText t = filterTrim ((splitBlank (splitNLlines t)).map joinNL) := rfl

theorem filterTrim_nil : filterTrim [] = [] := rfl

theorem filterTrim_cons (g : List Char) (gs : List (List Char)) :
    filterTrim (g :: gs) =
      if pyStrip g = [] then filterTrim gs else pyStrip g :: filterTrim gs := by
  simp only [filterTrim, List.map_cons, List.filter_cons, Bool.not_eq_eq_eq_not,
    Bool.not_true, List.isEmpty_iff]
  by_cases h : pyStrip g = [] <;> simp [h]

theorem filterTrim_cons_nil (gs : List (List Char)) :
    filterTrim ([] :: gs) = filterTrim gs := by
  rw [filterTrim_cons, if_pos pyStrip_nil]

theorem splitBlank_ne_nil (ls : List (List Char)) : splitBlank ls ≠ [] := by
  cases ls with
  | nil => simp [splitBlank]
  | cons l ls2 =>
    by_cases h : l = []
    · subst h; simp [splitBlank_cons_nil]
    · rw [splitBlank_cons_ne l ls2 h]; exact consHead_ne_nil _ _

theorem chunk_eq_of_splitAgree (t : List Char) (h : SplitAgree t) :
    chunkText t = specChunkText t := by
  obtain ⟨H, Rsrc, G, Rspec, hsrc, hspec, hdisj, hrest, _⟩ := h
  rw [chunkText_eq_filterTrim, specChunkText_eq_filterTrim, hsrc, hspec,
    List.map_cons, filterTrim_cons, filterTrim_cons, hrest]
  have hH : pyStrip H = pyStrip (joinNL G) := by
    rcases hdisj with h1 | h1
    · rw [h1]
    · rw [h1, pyStrip_append_of_space _ '\n' rfl]
  rw [hH]

theorem specChunkText_cons_nl (u : List Char) :
    specChunkText ('\n' :: u) = specChunkText u := by
  rw [specChunkText_eq_filterTrim, specChunkText_eq_filterTrim,
    splitNLlines_cons_nl, splitBlank_cons_nil, List.map_cons, joinNL_nil,
    filterTrim_cons_nil]

theorem chunkText_cons_nl (u : List Char) :
    chunkText ('\n' :: u) = chunkText u := by
  induction u with
  | nil => rfl
  | cons c u2 ih =>
    by_cases hc : c = '\n'
    · subst hc
      rw [ih, chunkText_eq_filterTrim, split2NL_nlnl, filterTrim_cons_nil,
        ← chunkText_eq_filterTrim]
    · obtain ⟨H, R, hHR⟩ : ∃ H R, split2NL (c :: u2) = H :: R := by
        cases hx : split2NL (c :: u2) with
        | nil => exact absurd hx (split2NL_ne_nil _)
        | cons H R => exact ⟨H, R, rfl⟩
      rw [chunkText_eq_filterTrim, chunkText_eq_filterTrim,
        split2NL_nl_cons c u2 hc, hHR, consHead_cons, filterTrim_cons,
        filterTrim_cons, pyStrip_cons_of_space '\n' rfl H]

theorem splitAgree_nil : SplitAgree [] :=
  ⟨[], [], [], [[]], rfl, rfl, Or.inl rfl, rfl, fun h => absurd rfl h⟩

theorem splitAgree_single (c : Char) (hc : ¬ c = '\n') : SplitAgree [c] := by
  refine ⟨[c], [], [[c]], [], ?_, ?_, Or.inl rfl, rfl, fun _ => by simp⟩
  · rw [split2NL_cons_ne c [] hc]
    rfl
  · rw [splitNLlines_cons_ne c [] hc]
    rfl

theorem splitAgree_pair_nl (c : Char) (hc : ¬ c = '\n') : SplitAgree [c, '\n'] := by
  refine ⟨[c, '\n'], [], [[c]], [[]], ?_, ?_, Or.inr rfl, rfl, fun _ => by simp⟩
  · rw [split2NL_cons_ne c ['\n'] hc, split2NL_nl_single]
    rfl
  · rw [splitNLlines_cons_ne c ['\n'] hc, splitNLlines_cons_nl]
    rfl

theorem splitAgree_boundary (c : Char) (hc : ¬ c = '\n') (u3 : List Char)
    (hL : chunkText u3 = specChunkText u3) :
    SplitAgree (c :: '\n' :: '\n' :: u3) := by
  refine ⟨[c], split2NL u3, [[c]], splitBlank (splitNLlines u3), ?_, ?_,
    Or.inl rfl, ?_, fun _ => by simp⟩
  · rw [split2NL_cons_ne c _ hc, split2NL_nlnl]
    rfl
  · rw [splitNLlines_cons_ne c _ hc, splitNLlines_cons_nl, splitNLlines_cons_nl,
      consHead_cons, splitBlank_cons_ne _ _ (by simp), splitBlank_cons_nil,
      consHead_cons]
  · rw [← chunkText_eq_filterTrim, ← specChunkText_eq_filterTrim]
    exact hL

theorem splitAgree_step_nl (c : Char) (hc : ¬ c = '\n') (c3 : Char)
    (u3 : List Char) (hc3 : ¬ c3 = '\n') (hA : SplitAgree (c3 :: u3)) :
    SplitAgree (c :: '\n' :: c3 :: u3) := by
  obtain ⟨H, R, G, Rs, hsrc, hblank, hdisj, hrest, hGne⟩ := hA
  have hG : G ≠ [] := hGne (by simp)
  refine ⟨c :: '\n' :: H, R, [c] :: G, Rs, ?_, ?_, ?_, hrest, fun _ => by simp⟩
  · rw [split2NL_cons_ne c _ hc, split2NL_nl_cons c3 u3 hc3, hsrc,
      consHead_cons, consHead_cons]
  · rw [splitNLlines_cons_ne c _ hc, splitNLlines_cons_nl, consHead_cons,
      splitBlank_cons_ne _ _ (by simp), hblank, consHead_cons]
  · rcases hdisj with h1 | h1
    · left
      rw [joinNL_cons_of_ne_nil _ _ hG, h1]
      rfl
    · right
      rw [joinNL_cons_of_ne_nil _ _ hG, h1]
      simp

theorem splitAgree_step (c : Char) (hc : ¬ c = '\n') (c2 : Char)
    (u2 : List Char) (hc2 : ¬ c2 = '\n') (hA : SplitAgree (c2 :: u2)) :
    SplitAgree (c :: c2 :: u2) := by
  obtain ⟨H, R, G, Rs, hsrc, hblank, hdisj, hrest, hGne⟩ := hA
  obtain ⟨l0, ls0, hlines⟩ : ∃ l0 ls0, splitNLlines u2 = l0 :: ls0 := by
    cases hx : splitNLlines u2 with
    | nil => exact absurd hx (splitNLlines_ne_nil u2)
    | cons a b => exact ⟨a, b, rfl⟩
  have hlines2 : splitNLlines (c2 :: u2) = (c2 :: l0) :: ls0 := by
    rw [splitNLlines_cons_ne c2 u2 hc2, hlines, consHead_cons]
  have hblank2 : consHead (c2 :: l0) (splitBlank ls0) = G :: Rs := by
    rw [← splitBlank_cons_ne (c2 :: l0) ls0 (by simp), ← hlines2, hblank]
  cases hx : splitBlank ls0 with
  | nil => exact absurd hx (splitBlank_ne_nil ls0)
  | cons g0 gs0 =>
    rw [hx, consHead_cons] at hblank2
    have hGeq : G = (c2 :: l0) :: g0 := by injection hblank2 with h1 h2; exact h1.symm
    have hRs : Rs = gs0 := by injection hblank2 with h1 h2; exact h2.symm
    refine ⟨c :: H, R, (c :: c2 :: l0) :: g0, gs0, ?_, ?_, ?_, ?_, fun _ => by simp⟩
    · rw [split2NL_cons_ne c _ hc, hsrc, consHead_cons]
    · rw [splitNLlines_cons_ne c _ hc, hlines2, consHead_cons,
        splitBlank_cons_ne _ _ (by simp), hx, consHead_cons]
    · have hjoin : joinNL ((c :: c2 :: l0) :: g0) = c :: joinNL ((c2 :: l0) :: g0) := by
        cases g0 with
        | nil => rfl
        | cons a b => rfl
      rcases hdisj with h1 | h1
      · left
        rw [hjoin, ← hGeq, h1]
      · right
        rw [hjoin, ← hGeq, h1]
        rfl
    · rw [← hRs]
      exact hrest

theorem chunkAgree : ∀ n (t : List Char), t.length ≤ n →
    ((t.head? ≠ some '\n') → SplitAgree t) ∧ chunkText t = specChunkText t := by
  intro n
  induction n with
  | zero =>
    intro t ht
    have h0 : t = [] := List.length_eq_zero.mp (Nat.le_zero.mp ht)
    subst h0
    exact ⟨fun _ => splitAgree_nil, rfl⟩
  | succ n ih =>
    intro t ht
    cases t with
    | nil => exact ⟨fun _ => splitAgree_nil, rfl⟩
    | cons c u =>
      have hu : u.length ≤ n := by
        simp only [List.length_cons] at ht
        omega
      by_cases hc : c = '\n'
      · subst hc
        refine ⟨fun hhead => absurd rfl hhead, ?_⟩
        rw [chunkText_cons_nl, specChunkText_cons_nl]
        exact (ih u hu).2
      · have hagree : SplitAgree (c :: u) := by
          cases u with
          | nil => exact splitAgree_single c hc
          | cons c2 u2 =>
            by_cases hc2 : c2 = '\n'
            · subst hc2
              cases u2 with
              | nil => exact splitAgree_pair_nl c hc
              | cons c3 u3 =>
                by_cases hc3 : c3 = '\n'
                · subst hc3
                  have hu3 : u3.length ≤ n := by
                    simp only [List.length_cons] at ht
                    omega
                  exact splitAgree_boundary c hc u3 (ih u3 hu3).2
                · have hu3 : (c3 :: u3).length ≤ n := by
                    simp only [List.length_cons] at ht ⊢
                    omega
                  exact splitAgree_step_nl c hc c3 u3 hc3
                    ((ih (c3 :: u3) hu3).1 (by simp [hc3]))
            · have hu2 : (c2 :: u2).length ≤ n := by
                simp only [List.length_cons] at ht ⊢
                omega
              exact splitAgree_step c hc c2 u2 hc2
                ((ih (c2 :: u2) hu2).1 (by simp [hc2]))
        exact ⟨fun _ => hagree, chunk_eq_of_splitAgree _ hagree⟩

/-- The source chunker and the chunker contract worded in the spec agree
on every input text. -/
theorem chunkText_eq_specChunkText (t : List Char) :
    chunkText t = specChunkText t :=
  (chunkAgree t.length t le_rfl).2

/-! ### Stable sort lemmas -/

theorem mem_insertDesc (x : MergedResult) (l : List MergedResult) (z : MergedResult) :
    z ∈ insertDesc x l ↔ z = x ∨ z ∈ l := by
  induction l with
  | nil => simp [insertDesc]
  | cons y ys ih =>
    by_cases h : y.score ≤ x.score
    · simp [insertDesc, h]
    · simp only [insertDesc, if_neg h, List.mem_cons, ih]
      tauto

theorem insertDesc_perm (x : MergedResult) (l : List MergedResult) :
    (insertDesc x l).Perm (x :: l) := by
  induction l with
  | nil => exact List.Perm.refl _
  | cons y ys ih =>
    by_cases h : y.score ≤ x.score
    · simp only [insertDesc, if_pos h]
      exact List.Perm.refl _
    · simp only [insertDesc, if_neg h]
      exact (ih.cons y).trans (List.Perm.swap x y ys)

theorem sortByScoreDesc_perm (l : List MergedResult) :
    (sortByScoreDesc l).Perm l := by
  induction l with
  | nil => exact List.Perm.refl _
  | cons x xs ih =>
    exact (insertDesc_perm x (sortByScoreDesc xs)).trans (ih.cons x)

theorem insertDesc_pairwise (x : MergedResult) (l : List MergedResult)
    (h : l.Pairwise (fun a b => b.score ≤ a.score)) :
    (insertDesc x l).Pairwise (fun a b => b.score ≤ a.score) := by
  induction l with
  | nil => simp [insertDesc]
  | cons y ys ih =>
    rcases List.pairwise_cons.mp h with ⟨hy, hys⟩
    by_cases hxy : y.score ≤ x.score
    · simp only [insertDesc, if_pos hxy]
      refine List.pairwise_cons.mpr ⟨?_, h⟩
      intro z hz
      rcases List.mem_cons.mp hz with rfl | hz2
      · exact hxy
      · exact le_trans (hy z hz2) hxy
    · simp only [insertDesc, if_neg hxy]
      refine List.pairwise_cons.mpr ⟨?_, ih hys⟩
      intro z hz
      rcases (mem_insertDesc x ys z).mp hz with rfl | hz2
      · exact le_of_lt (lt_of_not_le hxy)
      · exact hy z hz2

theorem sortByScoreDesc_pairwise (l : List MergedResult) :
    (sortByScoreDesc l).Pairwise (fun a b => b.score ≤ a.score) := by
  induction l with
  | nil => simp [sortByScoreDesc]
  | cons x xs ih => exact insertDesc_pairwise x (sortByScoreDesc xs) ih

theorem insertDesc_filter (x : MergedResult) (l : List MergedResult) (q : ℚ) :
    (insertDesc x l).filter (fun r => decide (r.score = q)) =
      (x :: l).filter (fun r => decide (r.score = q)) := by
  induction l with
  | nil => rfl
  | cons y ys ih =>
    by_cases hxy : y.score ≤ x.score
    · simp only [insertDesc, if_pos hxy]
    · simp only [insertDesc, if_neg hxy]
      by_cases hy : y.score = q
      · by_cases hx : x.score = q
        · exact absurd (le_of_eq (hy.trans hx.symm)) hxy
        · simp [List.filter_cons, hx, hy, ih]
      · simp [List.filter_cons, hy, ih]

theorem sortByScoreDesc_filter (l : List MergedResult) (q : ℚ) :
    (sortByScoreDesc l).filter (fun r => decide (r.score = q)) =
      l.filter (fun r => decide (r.score = q)) := by
  induction l with
  | nil => rfl
  | cons x xs ih =>
    simp only [sortByScoreDesc]
    rw [insertDesc_filter]
    by_cases hx : x.score = q <;> simp [List.filter_cons, hx, ih]

/-! ### Normalization lemmas -/

theorem foldl_min_le_start (a : ℚ) (l : List ℚ) : l.foldl min a ≤ a := by
  induction l generalizing a with
  | nil => exact le_refl a
  | cons b t ih => exact le_trans (ih (min a b)) (min_le_left a b)

theorem foldl_min_le_mem (a x : ℚ) (l : List ℚ) (hx : x ∈ l) :
    l.foldl min a ≤ x := by
  induction l generalizing a with
  | nil => cases hx
  | cons b t ih =>
    rcases List.mem_cons.mp hx with rfl | hx2
    · exact le_trans (foldl_min_le_start (min a x) t) (min_le_right a x)
    · exact ih (min a b) hx2

theorem foldl_min_mem (a : ℚ) (l : List ℚ) : l.foldl min a ∈ a :: l := by
  induction l generalizing a with
  | nil => simp
  | cons b t ih =>
    simp only [List.foldl_cons]
    rcases List.mem_cons.mp (ih (min a b)) with h2 | h2
    · rw [h2]
      rcases min_choice a b with h | h <;> simp [h]
    · exact List.mem_cons_of_mem a (List.mem_cons_of_mem b h2)

theorem le_foldl_max_start (a : ℚ) (l : List ℚ) : a ≤ l.foldl max a := by
  induction l generalizing a with
  | nil => exact le_refl a
  | cons b t ih => exact le_trans (le_max_left a b) (ih (max a b))

theorem le_foldl_max_mem (a x : ℚ) (l : List ℚ) (hx : x ∈ l) :
    x ≤ l.foldl max a := by
  induction l generalizing a with
  | nil => cases hx
  | cons b t ih =>
    rcases List.mem_cons.mp hx with rfl | hx2
    · exact le_trans (le_max_right a x) (le_foldl_max_start (max a x) t)
    · exact ih (max a b) hx2

theorem foldl_max_mem (a : ℚ) (l : List ℚ) : l.foldl max a ∈ a :: l := by
  induction l generalizing a with
  | nil => simp
  | cons b t ih =>
    simp only [List.foldl_cons]
    rcases List.mem_cons.mp (ih (max a b)) with h2 | h2
    · rw [h2]
      rcases max_choice a b with h | h <;> simp [h]
    · exact List.mem_cons_of_mem a (List.mem_cons_of_mem b h2)

theorem pyListMin_le (s0 : ℚ) (rest : List ℚ) (x : ℚ) (hx : x ∈ s0 :: rest) :
    pyListMin s0 rest ≤ x := by
  rcases List.mem_cons.mp hx with rfl | h
  · exact foldl_min_le_start x rest
  · exact foldl_min_le_mem s0 x rest h

theorem le_pyListMax (s0 : ℚ) (rest : List ℚ) (x : ℚ) (hx : x ∈ s0 :: rest) :
    x ≤ pyListMax s0 rest := by
  rcases List.mem_cons.mp hx with rfl | h
  · exact le_foldl_max_start x rest
  · exact le_foldl_max_mem s0 x rest h

theorem pyListMin_mem (s0 : ℚ) (rest : List ℚ) : pyListMin s0 rest ∈ s0 :: rest :=
  foldl_min_mem s0 rest

theorem pyListMax_mem (s0 : ℚ) (rest : List ℚ) : pyListMax s0 rest ∈ s0 :: rest :=
  foldl_max_mem s0 rest

theorem mathIsClose_refl (a : ℚ) : mathIsClose a a := by
  unfold mathIsClose
  simp only [sub_self, abs_zero]
  positivity

/-! ### Chunk emptiness lemmas -/

theorem split2NL_chars : ∀ n, ∀ t : List Char, t.length ≤ n →
    (∀ g ∈ split2NL t, ∀ c ∈ g, c ∈ t) ∧
    (∀ c ∈ t, ¬ c = '\n' → ∃ g ∈ split2NL t, c ∈ g) := by
  intro n
  induction n with
  | zero =>
    intro t ht
    have h0 : t = [] := List.length_eq_zero.mp (Nat.le_zero.mp ht)
    subst h0
    simp [split2NL]
  | succ n ih =>
    intro t ht
    cases t with
    | nil => simp [split2NL]
    | cons c0 rest =>
      have hrest : rest.length ≤ n := by
        simp only [List.length_cons] at ht
        omega
      obtain ⟨H, R, hHR⟩ : ∃ H R, split2NL rest = H :: R := by
        cases hx : split2NL rest with
        | nil => exact absurd hx (split2NL_ne_nil _)
        | cons H R => exact ⟨H, R, rfl⟩
      by_cases hc0 : c0 = '\n'
      · subst hc0
        cases rest with
        | nil =>
          constructor
          · intro g hg c hc
            simp only [split2NL_nl_single, List.mem_singleton] at hg
            subst hg
            simpa using hc
          · intro c hc hnl
            simp only [List.mem_singleton] at hc
            exact absurd hc hnl
        | cons c2 r2 =>
          by_cases hc2 : c2 = '\n'
          · subst hc2
            have hr2 : r2.length ≤ n := by
              simp only [List.length_cons] at ht
              omega
            obtain ⟨ih1, ih2⟩ := ih r2 hr2
            constructor
            · intro g hg c hc
              rw [split2NL_nlnl] at hg
              rcases List.mem_cons.mp hg with rfl | hg2
              · cases hc
              · exact List.mem_cons_of_mem _ (List.mem_cons_of_mem _ (ih1 g hg2 c hc))
            · intro c hc hnl
              rw [split2NL_nlnl]
              have hcr2 : c ∈ r2 := by
                rcases List.mem_cons.mp hc with rfl | hc2
                · exact absurd rfl hnl
                · rcases List.mem_cons.mp hc2 with rfl | hc3
                  · exact absurd rfl hnl
                  · exact hc3
              obtain ⟨g, hg, hcg⟩ := ih2 c hcr2 hnl
              exact ⟨g, List.mem_cons_of_mem _ hg, hcg⟩
          · obtain ⟨ih1, ih2⟩ := ih (c2 :: r2) hrest
            rw [hHR] at ih1 ih2
            constructor
            · intro g hg c hc
              rw [split2NL_nl_cons c2 r2 hc2, hHR, consHead_cons] at hg
              rcases List.mem_cons.mp hg with rfl | hg2
              · rcases List.mem_cons.mp hc with rfl | hc2m
                · exact List.mem_cons_self _ _
                · exact List.mem_cons_of_mem _ (ih1 H (List.mem_cons_self _ _) c hc2m)
              · exact List.mem_cons_of_mem _ (ih1 g (List.mem_cons_of_mem _ hg2) c hc)
            · intro c hc hnl
              rw [split2NL_nl_cons c2 r2 hc2, hHR, consHead_cons]
              have hcr : c ∈ c2 :: r2 := by
                rcases List.mem_cons.mp hc with rfl | hc2m
                · exact absurd rfl hnl
                · exact hc2m
              obtain ⟨g, hg, hcg⟩ := ih2 c hcr hnl
              rcases List.mem_cons.mp hg with rfl | hg2
              · exact ⟨'\n' :: g, List.mem_cons_self _ _, List.mem_cons_of_mem _ hcg⟩
              · exact ⟨g, List.mem_cons_of_mem _ hg2, hcg⟩
      · obtain ⟨ih1, ih2⟩ := ih rest hrest
        rw [hHR] at ih1 ih2
        constructor
        · intro g hg c hc
          rw [split2NL_cons_ne c0 rest hc0, hHR, consHead_cons] at hg
          rcases List.mem_cons.mp hg with rfl | hg2
          · rcases List.mem_cons.mp hc with rfl | hc2m
            · exact List.mem_cons_self _ _
            · exact List.mem_cons_of_mem _ (ih1 H (List.mem_cons_self _ _) c hc2m)
          · exact List.mem_cons_of_mem _ (ih1 g (List.mem_cons_of_mem _ hg2) c hc)
        · intro c hc hnl
          rw [split2NL_cons_ne c0 rest hc0, hHR, consHead_cons]
          rcases List.mem_cons.mp hc with rfl | hcr
          · exact ⟨c :: H, List.mem_cons_self _ _, List.mem_cons_self _ _⟩
          · obtain ⟨g, hg, hcg⟩ := ih2 c hcr hnl
            rcases List.mem_cons.mp hg with rfl | hg2
            · exact ⟨c0 :: g, List.mem_cons_self _ _, List.mem_cons_of_mem _ hcg⟩
            · exact ⟨g, List.mem_cons_of_mem _ hg2, hcg⟩

theorem chunkText_eq_nil_iff (t : List Char) :
    chunkText t = [] ↔ pyStrip t = [] := by
  rw [pyStrip_eq_nil_iff]
  constructor
  · intro h c hc
    by_cases hnl : c = '\n'
    · subst hnl
      rfl
    · obtain ⟨g, hg, hcg⟩ := (split2NL_chars t.length t le_rfl).2 c hc hnl
      have hmem : pyStrip g ∈ (split2NL t).map pyStrip :=
        List.mem_map_of_mem pyStrip hg
      have hstrip : pyStrip g = [] := by
        have h2 := List.filter_eq_nil_iff.mp h (pyStrip g) hmem
        simpa [List.isEmpty_iff] using h2
      exact (pyStrip_eq_nil_iff g).mp hstrip c hcg
  · intro h
    apply List.filter_eq_nil_iff.mpr
    intro a ha
    obtain ⟨g, hg, rfl⟩ := List.mem_map.mp ha
    have hs : pyStrip g = [] :=
      (pyStrip_eq_nil_iff g).mpr
        (fun c hc => h c ((split2NL_chars t.length t le_rfl).1 g hg c hc))
    simp [hs]

theorem split2NL_eq_of_no_boundary : ∀ t, hasNN t = false → split2NL t = [t]
  | [], _ => rfl
  | [c], _ => by
    by_cases hc : c = '\n'
    · subst hc
      rfl
    · rw [split2NL_cons_ne c [] hc]
      rfl
  | c :: c2 :: rest, h => by
    have hparts : (c = '\n' ∧ c2 = '\n') = False ∧ hasNN (c2 :: rest) = false := by
      simp only [hasNN, Bool.or_eq_false_iff, Bool.and_eq_false_iff] at h
      constructor
      · simp only [eq_iff_iff, iff_false]
        intro ⟨h1, h2⟩
        rcases h.1 with h3 | h3 <;> simp_all
      · exact h.2
    have h2 := split2NL_eq_of_no_boundary (c2 :: rest) hparts.2
    by_cases hc : c = '\n'
    · subst hc
      have hc2 : ¬ c2 = '\n' := by
        intro h3
        exact (hparts.1 ▸ ⟨rfl, h3⟩ : False)
      rw [split2NL_nl_cons c2 rest hc2, h2]
      rfl
    · rw [split2NL_cons_ne c (c2 :: rest) hc, h2]
      rfl

/-! ### Claim theorems -/

/-- Claim C1: for every query with result count k, the merger
concatenates the text candidates first and the image candidates second,
stable-sorts the combined list descending by normalized score (so that on
exact score ties the concatenation order, text before image, is
preserved), and truncates to the first k results; in particular, text
candidates with normalized scores 0.9 and 0.4 and image candidates with
normalized scores 0.95 and 0.5 merged with top_k 3 yield the image-0.95
result, then the text-0.9 result, then the image-0.5 result, in that
order. Stable sorting is characterized by: the output is sorted
descending, is a permutation of the concatenation, and restricted to any
single score value equals the concatenation so restricted. -/
theorem claim_C1_merge_order :
    (∀ (query : List Char) (textRes imageRes : QueryReply) (top_k : Nat),
      (multimodalQuery query textRes imageRes top_k).results =
        (sortByScoreDesc (textEntries textRes ++ imageEntries imageRes)).take top_k) ∧
    (∀ merged : List MergedResult, (sortByScoreDesc merged).Perm merged) ∧
    (∀ merged : List MergedResult,
      (sortByScoreDesc merged).Pairwise (fun a b => b.score ≤ a.score)) ∧
    (∀ (merged : List MergedResult) (q : ℚ),
      (sortByScoreDesc merged).filter (fun r => decide (r.score = q)) =
        merged.filter (fun r => decide (r.score = q))) ∧
    (rankResults (exampleTextCandidates ++ exampleImageCandidates) 3).map
        (fun r => (r.id, r.score, r.modality)) =
      [("i-high".data, (0.95 : ℚ), Modality.image),
       ("t-high".data, (0.9 : ℚ), Modality.text),
       ("i-low".data, (0.5 : ℚ), Modality.image)] := by
  refine ⟨fun _ _ _ _ => rfl, sortByScoreDesc_perm, sortByScoreDesc_pairwise,
    sortByScoreDesc_filter, ?_⟩
  norm_num [rankResults, sortByScoreDesc, insertDesc, exampleTextCandidates,
    exampleImageCandidates, exampleCandidate]

/-- Claim C10: for every query with top_k k, the returned results list has
length exactly the minimum of k and the total number of candidates the two
store queries returned, and the returned total_results field equals the
length of that truncated list, not the pre-truncation candidate count. -/
theorem claim_C10_result_count :
    ∀ (query : List Char) (textRes imageRes : QueryReply) (top_k : Nat),
      (multimodalQuery query textRes imageRes top_k).results.length =
        min top_k (textRes.ids.length + imageRes.ids.length) ∧
      (multimodalQuery query textRes imageRes top_k).total_results =
        (multimodalQuery query textRes imageRes top_k).results.length := by
  intro query tr ir k
  refine ⟨?_, rfl⟩
  show (rankResults (buildMerged tr ir) k).length = _
  rw [rankResults, List.length_take, (sortByScoreDesc_perm _).length_eq]
  simp [buildMerged, textEntries, imageEntries, List.enum_length]

/-- Claim C2 (amended): for every non-empty score list, normalization
returns values in the closed unit interval with at least one output equal
to 1; whenever the maximum and minimum are not numerically close in the
sense of math.isclose at relative tolerance 1e-9 (rather than merely not
all inputs equal), at least one output equals 0; for an all-equal input
every output equals 1; for an empty input the output is empty. -/
theorem claim_C2_normalize :
    normalizeScores [] = [] ∧
    ∀ (s0 : ℚ) (rest : List ℚ),
      (∀ x ∈ normalizeScores (s0 :: rest), 0 ≤ x ∧ x ≤ 1) ∧
      (∃ x ∈ normalizeScores (s0 :: rest), x = 1) ∧
      (¬ mathIsClose (pyListMax s0 rest) (pyListMin s0 rest) →
        ∃ x ∈ normalizeScores (s0 :: rest), x = 0) ∧
      ((∀ x ∈ s0 :: rest, x = s0) → ∀ x ∈ normalizeScores (s0 :: rest), x = 1) := by
  refine ⟨rfl, fun s0 rest => ?_⟩
  by_cases hc : mathIsClose (pyListMax s0 rest) (pyListMin s0 rest)
  · rw [normalizeScores, if_pos hc]
    refine ⟨?_, ?_, fun h => absurd hc h, ?_⟩
    · intro x hx
      rcases List.mem_map.mp hx with ⟨y, _, rfl⟩
      norm_num
    · exact ⟨1, List.mem_map_of_mem _ (List.mem_cons_self s0 rest), rfl⟩
    · intro _ x hx
      rcases List.mem_map.mp hx with ⟨y, _, rfl⟩
      rfl
  · rw [normalizeScores, if_neg hc]
    have hmle : pyListMin s0 rest ≤ pyListMax s0 rest :=
      le_trans (pyListMin_le s0 rest s0 (List.mem_cons_self s0 rest))
        (le_pyListMax s0 rest s0 (List.mem_cons_self s0 rest))
    have hne : pyListMin s0 rest ≠ pyListMax s0 rest := by
      intro h
      exact hc (h ▸ mathIsClose_refl (pyListMax s0 rest))
    have hpos : 0 < pyListMax s0 rest - pyListMin s0 rest :=
      sub_pos.mpr (lt_of_le_of_ne hmle hne)
    refine ⟨?_, ?_, fun _ => ?_, ?_⟩
    · intro x hx
      rcases List.mem_map.mp hx with ⟨y, hy, rfl⟩
      constructor
      · exact div_nonneg (sub_nonneg.mpr (pyListMin_le s0 rest y hy)) (le_of_lt hpos)
      · rw [div_le_one hpos]
        exact sub_le_sub_right (le_pyListMax s0 rest y hy) _
    · refine ⟨_, List.mem_map_of_mem _ (pyListMax_mem s0 rest), ?_⟩
      exact div_self (ne_of_gt hpos)
    · refine ⟨_, List.mem_map_of_mem _ (pyListMin_mem s0 rest), ?_⟩
      rw [sub_self, zero_div]
    · intro h
      exfalso
      have hmm : pyListMax s0 rest = pyListMin s0 rest :=
        (h _ (pyListMax_mem s0 rest)).trans (h _ (pyListMin_mem s0 rest)).symm
      exact hc (hmm ▸ mathIsClose_refl (pyListMin s0 rest))

/-- Witness for claim C2 at the concrete score list 0, 1: the max and
min are not close, so some normalized output equals 0. -/
theorem claim_C2_normalize_witness :
    ∃ x ∈ normalizeScores [(0 : ℚ), 1], x = 0 :=
  (claim_C2_normalize.2 0 [1]).2.2.1
    (by norm_num [mathIsClose, pyListMax, pyListMin])

/-- Claim C2 counterexample: for the input list 1, 1 + 1e-12 the inputs
are not all equal, yet normalization maps both scores to 1 (the isclose
guard fires), so no output equals 0 — refuting the claim that not-all-equal
inputs always yield an output equal to 0. -/
theorem claim_C2_counterexample :
    normalizeScores [(1 : ℚ), 1 + 1 / 1000000000000] = [1, 1] ∧
    (1 : ℚ) ≠ 1 + 1 / 1000000000000 ∧
    ¬ ∃ x ∈ normalizeScores [(1 : ℚ), 1 + 1 / 1000000000000], x = 0 := by
  have hclose : mathIsClose (pyListMax 1 [1 + 1 / 1000000000000])
      (pyListMin 1 [1 + 1 / 1000000000000]) := by
    have hmax : pyListMax 1 [1 + 1 / 1000000000000] = 1 + 1 / 1000000000000 := by
      simp only [pyListMax, List.foldl_cons, List.foldl_nil]
      rw [max_eq_right (by norm_num)]
    have hmin : pyListMin 1 [1 + 1 / 1000000000000] = 1 := by
      simp only [pyListMin, List.foldl_cons, List.foldl_nil]
      rw [min_eq_left (by norm_num)]
    rw [hmax, hmin, mathIsClose]
    rw [abs_of_nonneg (by norm_num : (0 : ℚ) ≤ 1 + 1 / 1000000000000 - 1)]
    rw [abs_of_nonneg (by norm_num : (0 : ℚ) ≤ 1 + 1 / 1000000000000)]
    rw [abs_of_nonneg (by norm_num : (0 : ℚ) ≤ 1)]
    rw [max_eq_left (by norm_num)]
    norm_num
  have hval : normalizeScores [(1 : ℚ), 1 + 1 / 1000000000000] = [1, 1] := by
    rw [normalizeScores, if_pos hclose]
    rfl
  refine ⟨hval, by norm_num, ?_⟩
  rw [hval]
  rintro ⟨x, hx, rfl⟩
  simp only [List.mem_cons, List.not_mem_nil, or_false] at hx
  rcases hx with h | h <;> exact absurd h.symm (by norm_num)

/-- Claim C8: the source attribution string is built deterministically in
the fixed field order worded in the spec (source path, file type, then
page, chunk index and upload timestamp each only when present, joined by
a bar separator), and the spec example metadata produces a string
containing the four labelled fields in order. -/
theorem claim_C8_attribution :
    (∀ md : Metadata,
      formatSourceAttribution md =
        List.intercalate " | ".data (specAttributionParts md)) ∧
    formatSourceAttribution pdfChunkMetadata =
      "Source: data/uploads/document.pdf | Type: pdf_text | Page: 5 | Chunk: 2".data ∧
    (∃ a b c d : List Char,
      formatSourceAttribution pdfChunkMetadata =
        "Source: data/uploads/document.pdf".data ++ a ++ "Type: pdf_text".data
          ++ b ++ "Page: 5".data ++ c ++ "Chunk: 2".data ++ d) := by
  refine ⟨?_, by decide, ⟨" | ".data, " | ".data, " | ".data, [], by decide⟩⟩
  intro md
  rcases md with ⟨d, ft, sp, ua, pg, ci, oc, ip⟩
  cases pg <;> cases ci <;> cases ua <;>
    simp [formatSourceAttribution, specAttributionParts, optPart]

/-- Claim C3 counterexample: an upload with declared content type
application/pdf and filename doc.txt is routed to the text routine, while
a content-type-first precedence would route it to the PDF routine — the
extension check of an earlier branch wins over the content-type check of
a later branch. -/
theorem claim_C3_counterexample :
    classifyUpload "application/pdf".data "doc.txt".data = Except.ok Route.text ∧
    specClassifyUpload "application/pdf".data "doc.txt".data = Except.ok Route.pdf ∧
    (Except.ok Route.text : Except ApiError Route) ≠ Except.ok Route.pdf :=
  ⟨by decide, by decide, by decide⟩

/-- Claim C3 (amended): classification proceeds by modality branch in the
fixed order text, image, PDF; a branch matches when the declared content
type belongs to that branch's supported set (text/plain; image/png,
image/jpeg, image/jpg; application/pdf) or the lowercased filename has
that branch's extension; an upload matching no branch fails with
UnsupportedMediaType status 415 carrying the rejected content type. -/
theorem claim_C3_routing :
    ∀ (content_type filename : List Char),
      (classifyUpload content_type filename = Except.ok Route.text ↔
        (SUPPORTED_TEXT.contains content_type
          || endsWithL (pyLower filename) ".txt".data) = true) ∧
      (classifyUpload content_type filename = Except.ok Route.image ↔
        (SUPPORTED_TEXT.contains content_type
          || endsWithL (pyLower filename) ".txt".data) = false ∧
        (SUPPORTED_IMAGES.contains content_type
          || endsWithL (pyLower filename) ".png".data
          || endsWithL (pyLower filename) ".jpg".data
          || endsWithL (pyLower filename) ".jpeg".data) = true) ∧
      (classifyUpload content_type filename = Except.ok Route.pdf ↔
        (SUPPORTED_TEXT.contains content_type
          || endsWithL (pyLower filename) ".txt".data) = false ∧
        (SUPPORTED_IMAGES.contains content_type
          || endsWithL (pyLower filename) ".png".data
          || endsWithL (pyLower filename) ".jpg".data
          || endsWithL (pyLower filename) ".jpeg".data) = false ∧
        (SUPPORTED_PDF.contains content_type
          || endsWithL (pyLower filename) ".pdf".data) = true) ∧
      (classifyUpload content_type filename =
          Except.error (ApiError.http 415 (unsupportedDetail content_type)) ↔
        (SUPPORTED_TEXT.contains content_type
          || endsWithL (pyLower filename) ".txt".data) = false ∧
        (SUPPORTED_IMAGES.contains content_type
          || endsWithL (pyLower filename) ".png".data
          || endsWithL (pyLower filename) ".jpg".data
          || endsWithL (pyLower filename) ".jpeg".data) = false ∧
        (SUPPORTED_PDF.contains content_type
          || endsWithL (pyLower filename) ".pdf".data) = false) := by
  intro ct fn
  by_cases h1 : (SUPPORTED_TEXT.contains ct
      || endsWithL (pyLower fn) ".txt".data) = true
  · have hval : classifyUpload ct fn = Except.ok Route.text := by
      simp only [classifyUpload]
      rw [if_pos h1]
    rw [hval]
    exact ⟨⟨fun _ => h1, fun _ => rfl⟩,
      ⟨fun hx => absurd hx (by simp), fun hx => Bool.noConfusion (h1.symm.trans hx.1)⟩,
      ⟨fun hx => absurd hx (by simp), fun hx => Bool.noConfusion (h1.symm.trans hx.1)⟩,
      ⟨fun hx => absurd hx (by simp), fun hx => Bool.noConfusion (h1.symm.trans hx.1)⟩⟩
  · rw [Bool.not_eq_true] at h1
    have h1n : ¬ (SUPPORTED_TEXT.contains ct
        || endsWithL (pyLower fn) ".txt".data) = true :=
      fun hx => Bool.noConfusion (h1.symm.trans hx)
    by_cases h2 : (SUPPORTED_IMAGES.contains ct
        || endsWithL (pyLower fn) ".png".data
        || endsWithL (pyLower fn) ".jpg".data
        || endsWithL (pyLower fn) ".jpeg".data) = true
    · have hval : classifyUpload ct fn = Except.ok Route.image := by
        simp only [classifyUpload]
        rw [if_neg h1n, if_pos h2]
      rw [hval]
      exact ⟨⟨fun hx => absurd hx (by simp), fun hx => Bool.noConfusion (hx.symm.trans h1)⟩,
        ⟨fun _ => ⟨h1, h2⟩, fun _ => rfl⟩,
        ⟨fun hx => absurd hx (by simp), fun hx => Bool.noConfusion (h2.symm.trans hx.2.1)⟩,
        ⟨fun hx => absurd hx (by simp), fun hx => Bool.noConfusion (h2.symm.trans hx.2.1)⟩⟩
    · rw [Bool.not_eq_true] at h2
      have h2n : ¬ (SUPPORTED_IMAGES.contains ct
          || endsWithL (pyLower fn) ".png".data
          || endsWithL (pyLower fn) ".jpg".data
          || endsWithL (pyLower fn) ".jpeg".data) = true :=
        fun hx => Bool.noConfusion (h2.symm.trans hx)
      by_cases h3 : (SUPPORTED_PDF.contains ct
          || endsWithL (pyLower fn) ".pdf".data) = true
      · have hval : classifyUpload ct fn = Except.ok Route.pdf := by
          simp only [classifyUpload]
          rw [if_neg h1n, if_neg h2n, if_pos h3]
        rw [hval]
        exact ⟨⟨fun hx => absurd hx (by simp), fun hx => Bool.noConfusion (hx.symm.trans h1)⟩,
          ⟨fun hx => absurd hx (by simp), fun hx => Bool.noConfusion (hx.2.symm.trans h2)⟩,
          ⟨fun _ => ⟨h1, h2, h3⟩, fun _ => rfl⟩,
          ⟨fun hx => absurd hx (by simp), fun hx => Bool.noConfusion (h3.symm.trans hx.2.2)⟩⟩
      · rw [Bool.not_eq_true] at h3
        have h3n : ¬ (SUPPORTED_PDF.contains ct
            || endsWithL (pyLower fn) ".pdf".data) = true :=
          fun hx => Bool.noConfusion (h3.symm.trans hx)
        have hval : classifyUpload ct fn =
            Except.error (ApiError.http 415 (unsupportedDetail ct)) := by
          simp only [classifyUpload]
          rw [if_neg h1n, if_neg h2n, if_neg h3n]
        rw [hval]
        exact ⟨⟨fun hx => absurd hx (by simp), fun hx => Bool.noConfusion (hx.symm.trans h1)⟩,
          ⟨fun hx => absurd hx (by simp), fun hx => Bool.noConfusion (hx.2.symm.trans h2)⟩,
          ⟨fun hx => absurd hx (by simp), fun hx => Bool.noConfusion (hx.2.2.symm.trans h3)⟩,
          ⟨fun _ => ⟨h1, h2, h3⟩, fun _ => rfl⟩⟩

/-- Witness for claim C3 at a plain-text upload. -/
theorem claim_C3_routing_witness :
    classifyUpload "text/plain".data "notes".data = Except.ok Route.text :=
  ((claim_C3_routing "text/plain".data "notes".data).1).mpr (by decide)

/-- Claim C4 counterexample: the plain-text chunk id for document d and
chunk 0 is txt::d::0, while the documented schema prescribes the chunk
component with a c marker, txt::d::c0; the two differ. -/
theorem claim_C4_counterexample :
    textChunkId "d".data 0 = "txt::d::0".data ∧
    schemaId "txt".data "d".data none (UnitTail.chunkTail 0) = "txt::d::c0".data ∧
    textChunkId "d".data 0 ≠ schemaId "txt".data "d".data none (UnitTail.chunkTail 0) :=
  ⟨by decide, by decide, by decide⟩

/-- Claim C4 (amended): the whole-image, PDF text chunk and PDF page
image ids follow the documented schema exactly, while the plain-text
chunk id joins the bare chunk index without the c marker; identical
builder inputs always yield identical id strings. -/
theorem claim_C4_id_schema :
    (∀ (doc_id : List Char) (i : Nat),
      textChunkId doc_id i = "txt::".data ++ doc_id ++ "::".data ++ natChars i) ∧
    (∀ doc_id : List Char,
      imageUnitId doc_id = schemaId "img".data doc_id none UnitTail.noTail) ∧
    (∀ (doc_id : List Char) (page i : Nat),
      pdfTextChunkId doc_id page i =
        schemaId "pdftext".data doc_id (some page) (UnitTail.chunkTail i)) ∧
    (∀ (doc_id : List Char) (page : Nat) (basename : List Char),
      pdfImageId doc_id page basename =
        schemaId "pdfimg".data doc_id (some page) (UnitTail.nameTail basename)) ∧
    (∀ (d1 d2 : List Char) (i1 i2 : Nat), d1 = d2 → i1 = i2 →
      textChunkId d1 i1 = textChunkId d2 i2) ∧
    (∀ (d1 d2 : List Char) (p1 p2 i1 i2 : Nat), d1 = d2 → p1 = p2 → i1 = i2 →
      pdfTextChunkId d1 p1 i1 = pdfTextChunkId d2 p2 i2) := by
  refine ⟨fun _ _ => rfl, ?_, ?_, ?_, ?_, ?_⟩
  · intro doc
    simp [imageUnitId, schemaId, List.append_assoc]
  · intro doc page i
    simp [pdfTextChunkId, schemaId, List.append_assoc]
  · intro doc page b
    simp [pdfImageId, schemaId, List.append_assoc]
  · intro d1 d2 i1 i2 h1 h2
    rw [h1, h2]
  · intro d1 d2 p1 p2 i1 i2 h1 h2 h3
    rw [h1, h2, h3]

/-- Witness for claim C4 determinism at concrete builder inputs. -/
theorem claim_C4_id_schema_witness :
    pdfTextChunkId "d".data 3 1 = pdfTextChunkId "d".data 3 1 :=
  claim_C4_id_schema.2.2.2.2.2 "d".data "d".data 3 3 1 1 rfl rfl rfl

/-- Claim C5: the chunker agrees with the spec contract on every input
(split on blank-line boundaries where a boundary is one or more fully
blank lines, trim each segment, drop segments empty after trimming,
preserve order); the spec example splits into exactly the three chunks
A, B, C in order; and any text with no blank-line separator that is
non-empty after trimming yields exactly one chunk. -/
theorem claim_C5_chunker :
    (∀ t : List Char, chunkText t = specChunkText t) ∧
    chunkText "A\n\nB\n\n\nC".data = ["A".data, "B".data, "C".data] ∧
    (∀ t : List Char, pyStrip t ≠ [] → hasNN t = false →
      chunkText t = [pyStrip t]) := by
  refine ⟨chunkText_eq_specChunkText, by decide, ?_⟩
  intro t hne hnn
  simp [chunkText, split2NL_eq_of_no_boundary t hnn, List.isEmpty_iff, hne]

/-- Witness for claim C5 at the one-block text A. -/
theorem claim_C5_chunker_witness :
    chunkText "A".data = [pyStrip "A".data] :=
  claim_C5_chunker.2.2 "A".data (by decide) (by decide)

/-- Claim C6: a text ingestion fails with the empty-document error
(HTTP 400) exactly when the chunk sequence of the file content is empty
after chunking and trimming, and in that case nothing is upserted. -/
theorem claim_C6_empty_document :
    ∀ (doc_id timestamp path content : List Char),
      (ingestText doc_id timestamp path content =
          Except.error (ApiError.http 400 "Empty text file".data) ↔
        chunkText content = []) ∧
      (chunkText content = [] →
        upsertedIds (ingestText doc_id timestamp path content) = []) := by
  intro doc ts path content
  by_cases h : (pyStrip content).isEmpty = true
  · have hnil : pyStrip content = [] := List.isEmpty_iff.mp h
    have hch : chunkText content = [] := (chunkText_eq_nil_iff content).mpr hnil
    exact ⟨by simp [ingestText, h, hch], fun _ => by simp [upsertedIds, ingestText, h]⟩
  · have hnil : pyStrip content ≠ [] := fun hx => h (List.isEmpty_iff.mpr hx)
    have hch : chunkText content ≠ [] :=
      fun hx => hnil ((chunkText_eq_nil_iff content).mp hx)
    exact ⟨by simp [ingestText, h, hch], fun hx => absurd hx hch⟩

/-- Witness for claim C6 at an all-whitespace file. -/
theorem claim_C6_empty_document_witness :
    upsertedIds (ingestText "d".data "t".data "p".data "   ".data) = [] :=
  (claim_C6_empty_document "d".data "t".data "p".data "   ".data).2 (by decide)

/-- Claim C7: the OCR wrapper returns the empty string on every failure
outcome (engine missing or any other exception) instead of raising, and
image ingestion still builds and upserts its single Unit whatever the OCR
outcome — a failed OCR run produces exactly the ingestion of an empty OCR
string. -/
theorem claim_C7_ocr_never_raises :
    (∀ run : OcrRun, (run = OcrRun.notFound ∨ run = OcrRun.failed) →
      ocrImage run = []) ∧
    (∀ (doc_id timestamp path : List Char) (run : OcrRun),
      (ingestImage doc_id timestamp path run).ids = [imageUnitId doc_id] ∧
      (ingestImage doc_id timestamp path run).metadatas.length = 1) ∧
    (∀ doc_id timestamp path : List Char,
      ingestImage doc_id timestamp path OcrRun.notFound =
        ingestImage doc_id timestamp path (OcrRun.ok []) ∧
      ingestImage doc_id timestamp path OcrRun.failed =
        ingestImage doc_id timestamp path (OcrRun.ok [])) := by
  refine ⟨?_, fun _ _ _ _ => ⟨rfl, rfl⟩, fun _ _ _ => ⟨rfl, rfl⟩⟩
  intro run h
  rcases h with rfl | rfl <;> rfl

/-- Witness for claim C7 at the missing-engine outcome. -/
theorem claim_C7_ocr_never_raises_witness :
    ocrImage OcrRun.notFound = [] :=
  claim_C7_ocr_never_raises.1 OcrRun.notFound (Or.inl rfl)

/-- Claim C9 counterexample: the image upload response has no
embedded_images key — the image count is returned under ingested_images. -/
theorem claim_C9_counterexample :
    (ingestImage "d".data "2024-01-01T00:00:00".data "data/uploads/x.png".data
        (OcrRun.ok "hi".data)).response.lookup "embedded_images".data = none ∧
    (ingestImage "d".data "2024-01-01T00:00:00".data "data/uploads/x.png".data
        (OcrRun.ok "hi".data)).response.lookup "ingested_images".data =
      some (RespVal.n 1) :=
  ⟨by decide, by decide⟩

/-- Claim C9 (amended): every successful image upload response carries the
document id under doc_id, the embedded-image count (always one) under the
key ingested_images (not embedded_images), and the OCR character count
under ocr_chars. -/
theorem claim_C9_image_response :
    ∀ (doc_id timestamp path : List Char) (run : OcrRun),
      (ingestImage doc_id timestamp path run).response.lookup "doc_id".data =
        some (RespVal.s doc_id) ∧
      (ingestImage doc_id timestamp path run).response.lookup
        "ingested_images".data = some (RespVal.n 1) ∧
      (ingestImage doc_id timestamp path run).response.lookup "ocr_chars".data =
        some (RespVal.n (ocrImage run).length) :=
  fun _ _ _ _ => ⟨rfl, rfl, rfl⟩

end MMRag
